import Mathlib

/-!
Shallow embedding of `deploy/runtools/firesim_topology_with_passes.py`:
the FireSim topology pass pipeline (MAC-address assignment, switching-table
synthesis, host-node mapping strategies), the fleet dispatch sequences, and
the run-workload monitor loop, together with theorems checking the
natural-language specification against this embedding.
-/

namespace FireSimModel

/-!
## Python `list.sort`

`fpga_nodes.sort(key=...)` is a stable sort; `reverse=True` reverses every
comparison but keeps stability, so equal keys stay in input order.  A stable
sort for a total preorder is unique as a function, so we model it with a
stable insertion sort parametrised by a boolean comparison `le`, where
`le x y = true` means `x` may be placed before `y`.
-/

/-- Insert `x` in front of the first element `y` with `le x y`. -/
def stableInsert (le : α → α → Bool) (x : α) : List α → List α
  | [] => [x]
  | y :: ys => if le x y then x :: y :: ys else y :: stableInsert le x ys

/-- Stable insertion sort: the model of Python `list.sort`. -/
def stableSort (le : α → α → Bool) : List α → List α
  | [] => []
  | x :: xs => stableInsert le x (stableSort le xs)

/-!
## `pass_no_net_host_mapping`

The no-network packing pass.  An FPGA-bearing run-farm host is reduced to
its identity and its `get_num_fpga_slots_max()` value; servers are the
machines in DFS order (`get_dfs_order_servers`), reduced to identifiers.
-/

/-- One FPGA-bearing run-farm host (`FPGAInst`). -/
structure FPGAInst where
  hostId : Nat
  num_fpga_slots_max : Nat
deriving DecidableEq, Repr

/-- The inner slot loop of `pass_no_net_host_mapping` on one host:
`for slot in range(node.get_num_fpga_slots_max()):
   node.add_simulation(servers[serverind]); serverind += 1;
   if len(servers) == serverind: return`.
`servers[serverind]` raises `IndexError` when out of range.  Returns the
simulations added to this host, the new `serverind`, and whether the early
`return` fired (all servers placed). -/
def assignHostSlots (servers : List Nat) :
    Nat → Nat → List Nat → Except String (List Nat × Nat × Bool)
  | 0, serverind, acc => .ok (acc, serverind, false)
  | slots + 1, serverind, acc =>
    match servers[serverind]? with
    | none => .error "IndexError: list index out of range"
    | some s =>
      if servers.length = serverind + 1 then .ok (acc ++ [s], serverind + 1, true)
      else assignHostSlots servers slots (serverind + 1) (acc ++ [s])

/-- The outer host loop of `pass_no_net_host_mapping`
(`for node in fpga_nodes: ...`), threading `serverind`.  Every host is
paired with the simulations added to it (hosts after an early `return`
keep their empty slot list). -/
def noNetLoop (servers : List Nat) :
    List FPGAInst → Nat → Except String (List (FPGAInst × List Nat) × Nat × Bool)
  | [], serverind => .ok ([], serverind, false)
  | h :: hs, serverind =>
    match assignHostSlots servers h.num_fpga_slots_max serverind [] with
    | .error e => .error e
    | .ok (asg, ind, early) =>
      if early then .ok ((h, asg) :: hs.map (fun h2 => (h2, [])), ind, true)
      else
        match noNetLoop servers hs ind with
        | .error e => .error e
        | .ok (rest, ind2, e2) => .ok ((h, asg) :: rest, ind2, e2)

/-- `pass_no_net_host_mapping`: sort the FPGA hosts by descending
`num_fpga_slots_max` (Python stable `sort(reverse=True, key=...)`, largest
first), fill slots with the DFS-ordered servers, returning as soon as all
servers are placed; otherwise
`assert serverind == len(servers), "ERR: all servers were not assigned to a host."`.
`noNetSortLe` is the descending-capacity comparison of that sort. -/
def noNetSortLe (a b : FPGAInst) : Bool :=
  decide (b.num_fpga_slots_max ≤ a.num_fpga_slots_max)

/-- Total slot capacity of a host inventory. -/
def totalSlots (hosts : List FPGAInst) : Nat :=
  (hosts.map (fun h => h.num_fpga_slots_max)).sum

/-- See the comment on `noNetSortLe`. -/
def pass_no_net_host_mapping (fpga_nodes0 : List FPGAInst) (servers : List Nat) :
    Except String (List (FPGAInst × List Nat)) :=
  let fpga_nodes := stableSort noNetSortLe fpga_nodes0
  match noNetLoop servers fpga_nodes 0 with
  | .error e => .error e
  | .ok (asg, serverind, early) =>
    if early then .ok asg
    else if serverind = servers.length then .ok asg
    else .error "ERR: all servers were not assigned to a host."

/-!
## `pass_simple_networked_host_node_mapping`

The downlink side of a switch's downlink is a `FireSimSwitchNode`, a
`FireSimServerNode`, or a `FireSimDummyServerNode` (a subclass of
`FireSimServerNode`, so `isinstance(x, FireSimServerNode)` is true for it).
The pass consumes the switches of the topology in DFS order
(`get_dfs_order_switches`, from `firesim_topology_core`, which is not part
of this source tree); we therefore take that switch list as the input.
-/

/-- The downlink side of one downlink edge of a switch. -/
inductive DownNode where
  | switchNode (nodeId : Nat)
  | serverNode (nodeId : Nat)
  | dummyNode (nodeId : Nat)
deriving DecidableEq, Repr

/-- `isinstance(x, FireSimDummyServerNode)`. -/
def DownNode.isDummy : DownNode → Bool
  | .dummyNode _ => true
  | _ => false

/-- `isinstance(x, FireSimSwitchNode)`. -/
def DownNode.isSwitch : DownNode → Bool
  | .switchNode _ => true
  | _ => false

/-- `isinstance(x, FireSimServerNode)` — true for dummy server nodes too,
since `FireSimDummyServerNode` subclasses `FireSimServerNode`. -/
def DownNode.isServer : DownNode → Bool
  | .serverNode _ => true
  | .dummyNode _ => true
  | _ => false

def DownNode.nodeId : DownNode → Nat
  | .switchNode i => i
  | .serverNode i => i
  | .dummyNode i => i

/-- One switch of the topology, as seen by the mapping passes:
its identity and the downlink sides of its downlinks, in order. -/
structure SwitchDesc where
  switchId : Nat
  downlinks : List DownNode
deriving DecidableEq, Repr

/-- A run-farm host that is not an FPGA node (`is_fpga_node()` false),
with its `switch_slots` list. -/
structure SwitchOnlyHost where
  hostId : Nat
  switch_slots : List Nat
deriving DecidableEq, Repr

/-- A run-farm FPGA host as mutated by the networked mapping passes:
`num_fpga_slots_max`, plus its `switch_slots` and `fpga_slots` lists. -/
structure FPGAHostState where
  hostId : Nat
  num_fpga_slots_max : Nat
  switch_slots : List Nat
  fpga_slots : List Nat
deriving DecidableEq, Repr

/-- The body of `pass_simple_networked_host_node_mapping` for one switch:
filter out dummy-server downlink sides; if all remaining are switches, add
the switch to each switch-only host whose `switch_slots` is empty (the
Python loop has no `break`, so every such host receives it); if all
remaining are servers, add the switch and all the servers to each FPGA host
whose `fpga_slots` is empty and whose capacity is at least the server count
(again no `break`); otherwise
`assert False, "Mixed downlinks currently not supported."`. -/
def simpleNetworkedOneSwitch (sw : SwitchDesc)
    (switch_nodes : List SwitchOnlyHost) (fpga_nodes : List FPGAHostState) :
    Except String (List SwitchOnlyHost × List FPGAHostState) :=
  let alldownlinknodes := sw.downlinks.filter (fun x => !x.isDummy)
  if alldownlinknodes.all (fun x => x.isSwitch) then
    .ok (switch_nodes.map (fun node =>
          if node.switch_slots.length = 0 then
            { node with switch_slots := node.switch_slots ++ [sw.switchId] }
          else node),
        fpga_nodes)
  else if alldownlinknodes.all (fun x => x.isServer) then
    let downlinknodes := alldownlinknodes
    .ok (switch_nodes,
        fpga_nodes.map (fun node =>
          if node.fpga_slots.length = 0 ∧ downlinknodes.length ≤ node.num_fpga_slots_max then
            { node with
                switch_slots := node.switch_slots ++ [sw.switchId],
                fpga_slots := node.fpga_slots ++ downlinknodes.map DownNode.nodeId }
          else node))
  else .error "Mixed downlinks currently not supported."

/-- `pass_simple_networked_host_node_mapping`: sort the FPGA hosts by
ascending capacity (`sort(key=...)`, smallest first; `simpleNetSortLe` is
that comparison), then process the switches in DFS order, mutating the
host lists. -/
def simpleNetSortLe (a b : FPGAHostState) : Bool :=
  decide (a.num_fpga_slots_max ≤ b.num_fpga_slots_max)

/-- See the comment above `simpleNetSortLe`. -/
def pass_simple_networked_host_node_mapping (switches : List SwitchDesc)
    (switch_nodes : List SwitchOnlyHost) (fpga_nodes0 : List FPGAHostState) :
    Except String (List SwitchOnlyHost × List FPGAHostState) :=
  let fpga_nodes := stableSort simpleNetSortLe fpga_nodes0
  go switches switch_nodes fpga_nodes
where
  go : List SwitchDesc → List SwitchOnlyHost → List FPGAHostState →
      Except String (List SwitchOnlyHost × List FPGAHostState)
    | [], sn, fn => .ok (sn, fn)
    | sw :: rest, sn, fn =>
      match simpleNetworkedOneSwitch sw sn fn with
      | .error e => .error e
      | .ok (sn2, fn2) => go rest sn2 fn2

/-!
## `mapping_use_one_fpga_node`

`alldownlinknodes = map(lambda x: x.get_downlink_side(), switch.downlinks)`
is a Python `map` iterator.  The list comprehension inside
`all([isinstance(x, FireSimServerNode) for x in alldownlinknodes])` drains
it, so later iteration over the same object yields nothing.  The `elif`
reads the variable `downlinknodes`, which is only bound inside the `if`
branch of an earlier loop iteration.
-/

/-- A Python iterator (here: the `map` object over a switch's downlinks).
Consuming it, e.g. via a list comprehension, leaves it exhausted. -/
structure PyIter (α : Type) where
  remaining : List α
deriving DecidableEq, Repr

/-- Drain a Python iterator into a list (what a list comprehension or a
`for` loop does), returning the list and the now-exhausted iterator. -/
def PyIter.drain (it : PyIter α) : List α × PyIter α := (it.remaining, ⟨[]⟩)

/-- The `for switch in switches` loop of `mapping_use_one_fpga_node`,
threading the FPGA host list (all additions go to `fpga_nodes[0]` since
`fpga_nodes_used` is only incremented after the loop) and the
possibly-unbound variable `downlinknodes`. -/
def mappingOneLoop :
    List SwitchDesc → List FPGAHostState → Option (PyIter DownNode) →
      Except String (List FPGAHostState)
  | [], fn, _ => .ok fn
  | sw :: rest, fn, downlinknodes =>
    match fn with
    | [] => .error "IndexError: list index out of range"
    | f0 :: fs =>
      let f0 := { f0 with switch_slots := f0.switch_slots ++ [sw.switchId] }
      let alldownlinknodes : PyIter DownNode := ⟨sw.downlinks⟩
      let drained := alldownlinknodes.drain
      if drained.1.all (fun x => x.isServer) then
        let downlinknodes2 := drained.2
        let served := downlinknodes2.drain
        let f0 := { f0 with fpga_slots := f0.fpga_slots ++ served.1.map DownNode.nodeId }
        mappingOneLoop rest (f0 :: fs) (some served.2)
      else
        match downlinknodes with
        | none => .error "UnboundLocalError: local variable referenced before assignment"
        | some it =>
          let checked := it.drain
          if checked.1.any (fun x => x.isServer) then
            .error "MIXED DOWNLINKS NOT SUPPORTED."
          else mappingOneLoop rest (f0 :: fs) (some checked.2)

/-- `mapping_use_one_fpga_node`: put every switch (and, intendedly, every
server) on `fpga_nodes[0]`.  `downlinknodes` starts unbound. -/
def mapping_use_one_fpga_node (switches : List SwitchDesc)
    (fpga_nodes : List FPGAHostState) : Except String (List FPGAHostState) :=
  mappingOneLoop switches fpga_nodes none

/-!
## Topology tree, `pass_assign_mac_addresses`, `pass_compute_switching_tables`
-/

/-- A node of the FireSim topology tree: a server (`FireSimServerNode`,
with `dummy = true` for `FireSimDummyServerNode`) carrying its MAC address
as a small integer (`MacAddress.as_int_no_prefix`), or a switch with its
downlink subtrees. -/
inductive FNode where
  | server (mac : Nat) (dummy : Bool)
  | switch (downlinks : List FNode)
deriving Repr

mutual

/-- `pass_assign_mac_addresses` on one subtree, threading the allocator.
Modelled from the spec: `get_dfs_order` (in `firesim_topology_core`, not in
this source tree) is a depth-first, left-to-right traversal, and the
allocator issues sequential integers from its reset point. -/
def assignMacs : FNode → Nat → FNode × Nat
  | .server _ d, next => (.server next d, next + 1)
  | .switch ds, next =>
    let r := assignMacsList ds next
    (.switch r.1, r.2)

/-- `pass_assign_mac_addresses` over a list of sibling subtrees. -/
def assignMacsList : List FNode → Nat → List FNode × Nat
  | [], next => ([], next)
  | t :: ts, next =>
    let r := assignMacs t next
    let rs := assignMacsList ts r.2
    (r.1 :: rs.1, rs.2)

end

mutual

/-- `downlinkmacs`: every MAC address reachable on the downlinks of a node;
a server contributes its own MAC.  The Python pass computes this for a
switch with `reduce(lambda x, y: x + y, childdownlinkmacs)`, i.e. the
concatenation of the children's lists (requiring at least one downlink,
cf. `wfNode`); the traversal order makes this bottom-up over the tree. -/
def downlinkmacs : FNode → List Nat
  | .server m _ => [m]
  | .switch ds => downlinkmacsList ds

def downlinkmacsList : List FNode → List Nat
  | [] => []
  | t :: ts => downlinkmacs t ++ downlinkmacsList ts

end

mutual

/-- Every switch of the subtree has at least one downlink, so the Python
`reduce` over `childdownlinkmacs` does not raise `TypeError`. -/
def wfNode : FNode → Bool
  | .server _ _ => true
  | .switch ds => !ds.isEmpty && wfNodeList ds

def wfNodeList : List FNode → Bool
  | [] => true
  | t :: ts => wfNode t && wfNodeList ts

end

mutual

/-- The switches of a subtree in DFS order, each given by its downlink
list.  Modelled from the spec: `get_dfs_order_switches` (in
`firesim_topology_core`, not in this source tree) is the depth-first
traversal restricted to switches. -/
def switchesDfs : FNode → List (List FNode)
  | .server _ _ => []
  | .switch ds => ds :: switchesDfsList ds

def switchesDfsList : List FNode → List (List FNode)
  | [] => []
  | t :: ts => switchesDfs t ++ switchesDfsList ts

end

/-- `for mac in portmacs: switchtab[mac.as_int_no_prefix()] = port_no`.
(Python raises `IndexError` on an out-of-range index, where `List.set` is
a no-op; after `pass_assign_mac_addresses` every allocated MAC is below
`next_mac_to_allocate()`, where the two agree.) -/
def setPortMacs (tab : List Nat) (portmacs : List Nat) (port_no : Nat) : List Nat :=
  portmacs.foldl (fun t mac => t.set mac port_no) tab

/-- The `for port_no in range(len(switch.downlinks))` loop. -/
def portLoop : List FNode → Nat → List Nat → List Nat
  | [], _, tab => tab
  | d :: ds, port_no, tab =>
    portLoop ds (port_no + 1) (setPortMacs tab (downlinkmacs d) port_no)

/-- The switching table of one switch: prepopulate
`switchtab = [uplinkportno for x in range(MacAddress.next_mac_to_allocate())]`
with `uplinkportno = len(switch.downlinks)`, then overwrite the entry of
every MAC reachable through downlink port `port_no` with `port_no`.
`next_mac` is the allocator's next-to-issue value after
`pass_assign_mac_addresses`, i.e. the total number of allocated MACs. -/
def switch_table (next_mac : Nat) (downlinks : List FNode) : List Nat :=
  portLoop downlinks 0 (List.replicate next_mac downlinks.length)

/-- `pass_compute_switching_tables`: first
`assert "pass_assign_mac_addresses" in self.passes_used`, then compute the
switching table of every switch in DFS order (paired here with the
switch's downlink list). -/
def pass_compute_switching_tables (passes_used : List String)
    (roots : List FNode) (next_mac : Nat) :
    Except String (List (List FNode × List Nat)) :=
  if "pass_assign_mac_addresses" ∈ passes_used then
    .ok ((switchesDfsList roots).map (fun ds => (ds, switch_table next_mac ds)))
  else .error "AssertionError: pass_assign_mac_addresses not in passes_used"

/-- The first two passes of `phase_one_passes`, as run on construction:
reset the allocator, assign MAC addresses in DFS order, record the pass in
`passes_used`, then compute the switching tables. -/
def phase_one_mac_and_tables (roots : List FNode) :
    Except String (List (List FNode × List Nat)) :=
  let r := assignMacsList roots 0
  pass_compute_switching_tables ["pass_assign_mac_addresses"] r.1 r.2

/-!
## The `run_workload_passes` monitor loop
-/

/-- The per-switch (`instdata['switches']`) and per-simulation
(`instdata['sims']`) completion flags one host returns from
`monitor_jobs_instance`, keyed by name, in insertion order. -/
structure InstanceState where
  switches : List (String × Bool)
  sims : List (String × Bool)
deriving DecidableEq, Repr

/-- Python `dict` assignment `d[k] = v`: replace in place if the key
exists, else append. -/
def dictAssign (d : List (String × Bool)) (k : String) (v : Bool) :
    List (String × Bool) :=
  if d.any (fun p => p.1 == k) then
    d.map (fun p => if p.1 == k then (k, v) else p)
  else d ++ [(k, v)]

/-- The keys of a modelled Python dict. -/
def dictKeys (d : List (String × Bool)) : List String :=
  d.map (fun p => p.1)

/-- Python `dict.update`. -/
def dictUpdate (d : List (String × Bool)) (kv : List (String × Bool)) :
    List (String × Bool) :=
  kv.foldl (fun acc p => dictAssign acc p.1 p.2) d

/-- `jobs_complete_dict`: `update` folded over every host's `sims` dict. -/
def jobs_complete_dict (instancestates : List InstanceState) :
    List (String × Bool) :=
  instancestates.foldl (fun acc inst => dictUpdate acc inst.sims) []

/-- `global_status = jobs_complete_dict.values()`. -/
def global_status (instancestates : List InstanceState) : List Bool :=
  (jobs_complete_dict instancestates).map (fun p => p.2)

/-- The externally visible actions of the polling loop in
`run_workload_passes`: a fan-out status query
(`execute(monitor_jobs_wrapper, ..., teardown, ...)`) with its teardown
flag, and a call to `kill_simulation_passes` with its
`disconnect_all_nbds` argument. -/
inductive MonitorEvent where
  | poll (teardown : Bool)
  | killSimulationPasses (disconnect_all_nbds : Bool)
deriving DecidableEq, Repr

/-- The `while True` polling loop, driven by the stream of per-tick status
replies (one `List InstanceState` per tick, one entry per host).  Each tick
queries every host with `teardown = False`; then, if
`teardown_required and any(global_status)`, it runs
`kill_simulation_passes(..., disconnect_all_nbds=False)`, queries every
host once more with `teardown = True` and breaks; otherwise, if
`not teardown_required and all(global_status)`, it breaks; otherwise it
sleeps and repeats.  Returns the events and whether the loop exited
(`false` when the reply stream ran out with the loop still polling). -/
def runPollingLoop (teardown_required : Bool) :
    List (List InstanceState) → List MonitorEvent × Bool
  | [] => ([], false)
  | st :: rest =>
    if teardown_required && (global_status st).any id then
      ([.poll false, .killSimulationPasses false, .poll true], true)
    else if !teardown_required && (global_status st).all id then
      ([.poll false], true)
    else
      let r := runPollingLoop teardown_required rest
      (.poll false :: r.1, r.2)

/-- The result of the monitoring phase of `run_workload_passes`. -/
inductive MonitorOutcome where
  | pyError (msg : String)
  | running (events : List MonitorEvent)
  | done (events : List MonitorEvent)
deriving DecidableEq, Repr

/-- The kind of one root of `self.firesimtopol.roots`. -/
inductive RootKind where
  | switchRoot
  | serverRoot
deriving DecidableEq, Repr

/-- `teardown_required = isinstance(self.firesimtopol.roots[0],
FireSimSwitchNode)` followed by the polling loop; `roots[0]` raises
`IndexError` on an empty root list. -/
def run_workload_monitor (roots : List RootKind)
    (trace : List (List InstanceState)) : MonitorOutcome :=
  match roots with
  | [] => .pyError "IndexError: list index out of range"
  | r :: _ =>
    let teardown_required := r == RootKind.switchRoot
    let res := runPollingLoop teardown_required trace
    if res.2 then .done res.1 else .running res.1

def MonitorOutcome.events : MonitorOutcome → List MonitorEvent
  | .pyError _ => []
  | .running evs => evs
  | .done evs => evs

def MonitorEvent.isKill : MonitorEvent → Bool
  | .killSimulationPasses _ => true
  | _ => false

/-- Does some host's reply report some simulation complete? -/
def tickAnyComplete (st : List InstanceState) : Bool :=
  st.any (fun h => h.sims.any (fun p => p.2))

/-- Does every host's reply report every simulation complete? -/
def tickAllComplete (st : List InstanceState) : Bool :=
  st.all (fun h => h.sims.all (fun p => p.2))

/-- The simulation names of one tick, across all hosts, have no
duplicates (each simulation is reported by exactly one host). -/
def tickSimKeysNodup (st : List InstanceState) : Prop :=
  ((st.map (fun h => h.sims)).flatten.map (fun p => p.1)).Nodup

/-!
## Fleet dispatch sequences
-/

/-- The fleet-level operations issued by the dispatch passes, in program
order: `post_launch_binding`, the local driver/switch builds, and the
`execute(...)` fan-outs over all run-farm IPs. -/
inductive FleetOp where
  | post_launch_binding
  | build_required_drivers
  | build_required_switches
  | instance_liveness
  | infrasetup_node
  | start_switches
  | start_simulations
  | kill_switches
  | kill_simulations (disconnect_all_nbds : Bool)
  | screens_poll
deriving DecidableEq, Repr

/-- The operation sequence of `infrasetup_passes`. -/
def infrasetup_passes : List FleetOp :=
  [.post_launch_binding, .build_required_drivers, .build_required_switches,
   .instance_liveness, .infrasetup_node]

/-- The operation sequence of `boot_simulation_passes`. -/
def boot_simulation_passes (skip_instance_binding : Bool) : List FleetOp :=
  (if skip_instance_binding then [] else [.post_launch_binding]) ++
    [.instance_liveness, .start_switches, .start_simulations]

/-- The operation sequence of `kill_simulation_passes`. -/
def kill_simulation_passes (disconnect_all_nbds : Bool) : List FleetOp :=
  [.post_launch_binding, .kill_switches,
   .kill_simulations disconnect_all_nbds, .screens_poll]

/-- The `execute(...)` fan-outs that run per-host work of the operation
itself (everything except host binding, the local builds, and the liveness
no-op). -/
def FleetOp.isRemoteHostWork : FleetOp → Bool
  | .infrasetup_node => true
  | .start_switches => true
  | .start_simulations => true
  | .kill_switches => true
  | .kill_simulations _ => true
  | .screens_poll => true
  | _ => false

/-- Run an operation sequence against a fleet in which some host is
unreachable (`alive = false`): fabric propagates the first failure, so the
batch aborts at a failed liveness check and nothing after it is
attempted. -/
def attemptedOps (alive : Bool) : List FleetOp → List FleetOp
  | [] => []
  | op :: rest =>
    if op == FleetOp.instance_liveness && !alive then [op]
    else op :: attemptedOps alive rest

/-!
## The post-run hook epilogue of `run_workload_passes`
-/

/-- The outcome of a fabric 1.x call: a normal return, or `abort()`
(which raises `SystemExit`). -/
inductive FabricResult (α : Type) where
  | ok (a : α)
  | abort (msg : String)
deriving DecidableEq, Repr

/-- fabric 1.x `local(cmd, capture=True)`: runs the command and captures
its return code; if the return code is non-zero and `env.warn_only` is
false, `error()` aborts with `SystemExit`.  `env.warn_only` defaults to
false — this very file wraps other calls in `with warn_only()` when it
wants the non-aborting behaviour, and the post-run-hook call is not so
wrapped. -/
def fabric_local (return_code : Nat) (warn_only : Bool) : FabricResult Nat :=
  if return_code ≠ 0 && !warn_only then
    .abort "local() encountered an error (return code) while executing the command"
  else .ok return_code

/-- The log lines of the epilogue that follows the polling loop. -/
inductive EpilogueEvent where
  | runningHookMsg
  | successMsg
deriving DecidableEq, Repr

/-- The epilogue of `run_workload_passes` after the polling loop: if
`self.workload.post_run_hook` is set, run it through fabric `local` (no
`warn_only`), then print
`"FireSim Simulation Exited Successfully. ..."`.  `hook_return_code` is
the exit status of the external hook command. -/
def run_workload_epilogue (post_run_hook : Option String)
    (hook_return_code : Nat) : FabricResult (List EpilogueEvent) :=
  match post_run_hook with
  | none => .ok [.successMsg]
  | some _ =>
    match fabric_local hook_return_code false with
    | .abort msg => .abort msg
    | .ok _ => .ok [.runningHookMsg, .successMsg]

/-- Whether the monitor reaches its own successful exit (prints the final
success message). -/
def epiloguePrintsSuccess (post_run_hook : Option String)
    (hook_return_code : Nat) : Bool :=
  match run_workload_epilogue post_run_hook hook_return_code with
  | .ok evs => evs.contains .successMsg
  | .abort _ => false

/-!
## Theorems
-/

theorem stableInsert_perm (le : α → α → Bool) (x : α) (l : List α) :
    List.Perm (stableInsert le x l) (x :: l) := by
  induction l with
  | nil => simp [stableInsert]
  | cons y ys ih =>
    by_cases h : le x y = true
    · simp [stableInsert, h]
    · simp only [stableInsert, h, if_false]
      exact (List.Perm.cons y ih).trans (List.Perm.swap x y ys)

theorem stableSort_perm (le : α → α → Bool) (l : List α) :
    List.Perm (stableSort le l) l := by
  induction l with
  | nil => simp [stableSort]
  | cons x xs ih =>
    exact (stableInsert_perm le x (stableSort le xs)).trans (ih.cons x)

theorem stableInsert_pairwise (le : α → α → Bool)
    (htot : ∀ a b : α, le a b = true ∨ le b a = true)
    (htrans : ∀ a b c : α, le a b = true → le b c = true → le a c = true)
    (x : α) (l : List α)
    (hl : l.Pairwise (fun a b => le a b = true)) :
    (stableInsert le x l).Pairwise (fun a b => le a b = true) := by
  induction l with
  | nil => simp [stableInsert]
  | cons y ys ih =>
    rcases List.pairwise_cons.mp hl with ⟨hy, hys⟩
    by_cases h : le x y = true
    · simp only [stableInsert, h, if_true]
      refine List.pairwise_cons.mpr ⟨?_, hl⟩
      intro z hz
      rcases List.mem_cons.mp hz with hz | hz
      · exact hz ▸ h
      · exact htrans x y z h (hy z hz)
    · simp only [stableInsert, h, if_false]
      refine List.pairwise_cons.mpr ⟨?_, ih hys⟩
      intro z hz
      rcases List.mem_cons.mp ((stableInsert_perm le x ys).mem_iff.mp hz) with hz | hz
      · rcases htot x y with hxy | hyx
        · exact absurd hxy h
        · exact hz ▸ hyx
      · exact hy z hz

theorem stableSort_pairwise (le : α → α → Bool)
    (htot : ∀ a b : α, le a b = true ∨ le b a = true)
    (htrans : ∀ a b c : α, le a b = true → le b c = true → le a c = true)
    (l : List α) :
    (stableSort le l).Pairwise (fun a b => le a b = true) := by
  induction l with
  | nil => simp [stableSort]
  | cons x xs ih => exact stableInsert_pairwise le htot htrans x _ ih

/-!
### Claims C1 and C2: the networked mapping strategies
-/

/-- Claim C1 states that each switch is assigned to exactly one host.  The
code's host-selection loops have no `break`: this theorem evaluates the
pass and shows that, with two empty switch-only hosts, a switch whose
downlinks are all switches is added to both of them, and that, with two
empty capacity-3 FPGA hosts, a switch with three machine children is
added, together with all three machines, to both hosts.  (With a
single eligible host, as in the spec's example, the pass does behave as
claimed — the third conjunct.) -/
theorem claim_C1 :
    pass_simple_networked_host_node_mapping
        [⟨0, [.switchNode 1, .switchNode 2]⟩] [⟨0, []⟩, ⟨1, []⟩] [] =
      .ok ([⟨0, [0]⟩, ⟨1, [0]⟩], []) ∧
    pass_simple_networked_host_node_mapping
        [⟨5, [.serverNode 10, .serverNode 11, .serverNode 12]⟩]
        [] [⟨0, 3, [], []⟩, ⟨1, 3, [], []⟩] =
      .ok ([], [⟨0, 3, [5], [10, 11, 12]⟩, ⟨1, 3, [5], [10, 11, 12]⟩]) ∧
    pass_simple_networked_host_node_mapping
        [⟨5, [.serverNode 10, .serverNode 11, .serverNode 12]⟩]
        [] [⟨0, 3, [], []⟩] =
      .ok ([], [⟨0, 3, [5], [10, 11, 12]⟩]) ∧
    pass_simple_networked_host_node_mapping
        [⟨0, [.switchNode 1, .serverNode 10]⟩] [] [] =
      .error "Mixed downlinks currently not supported." :=
  ⟨rfl, rfl, rfl, rfl⟩

/-- Claim C2 states that `mapping_use_one_fpga_node` assigns every switch
and every descendant machine to one FPGA host and fails on mixed
downlinks.  Evaluating the embedded code shows the switch but none of its
machine children lands on the host (the `map` iterator `alldownlinknodes`
is drained by the homogeneity check before the assignment loop runs);
that a first switch with mixed downlinks raises `UnboundLocalError`
instead of the mixed-downlink assertion; and that a later mixed switch is
accepted silently (the `any` check iterates the stale, exhausted
iterator). -/
theorem claim_C2 :
    mapping_use_one_fpga_node
        [⟨0, [.serverNode 10, .serverNode 11]⟩] [⟨0, 4, [], []⟩] =
      .ok [⟨0, 4, [0], []⟩] ∧
    mapping_use_one_fpga_node
        [⟨0, [.switchNode 1, .serverNode 10]⟩] [⟨0, 4, [], []⟩] =
      .error "UnboundLocalError: local variable referenced before assignment" ∧
    mapping_use_one_fpga_node
        [⟨0, [.serverNode 10]⟩, ⟨1, [.switchNode 0, .serverNode 11]⟩]
        [⟨0, 4, [], []⟩] =
      .ok [⟨0, 4, [0, 1], []⟩] :=
  ⟨rfl, rfl, rfl⟩

/-!
### Claim C9: dependency guard of the switching-table pass
-/

/-- Claim C9: invoking `pass_compute_switching_tables` when
`pass_assign_mac_addresses` has not been recorded in `passes_used` fails
fast at entry with the assertion error; no tables are produced. -/
theorem claim_C9 (passes_used : List String) (roots : List FNode)
    (next_mac : Nat) (h : "pass_assign_mac_addresses" ∉ passes_used) :
    pass_compute_switching_tables passes_used roots next_mac =
      .error "AssertionError: pass_assign_mac_addresses not in passes_used" := by
  simp [pass_compute_switching_tables, h]

theorem claim_C9_witness :
    "pass_assign_mac_addresses" ∉ (["pass_assign_jobs"] : List String) ∧
      pass_compute_switching_tables ["pass_assign_jobs"]
          [.server 0 false] 0 =
        .error "AssertionError: pass_assign_mac_addresses not in passes_used" :=
  ⟨by decide, claim_C9 ["pass_assign_jobs"] [.server 0 false] 0 (by decide)⟩

/-!
### Claims C7 and C8: dispatch-point liveness and the post-run hook
-/

/-- Claim C7 states that all three dispatch points (infrasetup, boot,
kill) run a fleet-wide liveness check before any per-host work.  This is
false for the kill dispatch point: `kill_simulation_passes` issues its
per-host kill work with no `instance_liveness` fan-out at all (evaluated
here at the default `disconnect_all_nbds = true`). -/
theorem claim_C7_counterexample :
    FleetOp.instance_liveness ∉ kill_simulation_passes true := by
  decide

/-- Claim C7, amended: for infrasetup and boot the liveness check is
present and precedes (and so gates) every per-host operation — with an
unreachable host the batch aborts at the liveness check and no per-host
work is attempted — while `kill_simulation_passes` contains no liveness
check. -/
theorem claim_C7 : ∀ skip d : Bool,
    ((attemptedOps false infrasetup_passes).all
        (fun op => !op.isRemoteHostWork) = true) ∧
    ((attemptedOps false (boot_simulation_passes skip)).all
        (fun op => !op.isRemoteHostWork) = true) ∧
    FleetOp.instance_liveness ∈ infrasetup_passes ∧
    FleetOp.instance_liveness ∈ boot_simulation_passes skip ∧
    FleetOp.instance_liveness ∉ kill_simulation_passes d := by
  decide

/-- Claim C8 states that a non-zero exit of the post-run hook is logged
but not fatal, the monitor still printing its success message.  In the
code the hook runs through fabric `local` without `warn_only`, which
aborts with `SystemExit` on a non-zero return code, so the success message
is never printed: evaluated here at a hook exiting with status 1. -/
theorem claim_C8_counterexample :
    epiloguePrintsSuccess (some "hook.sh") 1 = false ∧
      run_workload_epilogue (some "hook.sh") 1 =
        .abort "local() encountered an error (return code) while executing the command" :=
  ⟨rfl, rfl⟩

/-- Claim C8, amended: a non-zero exit of the post-run hook aborts the
monitor via fabric's `SystemExit` before the success message; the monitor
reaches its successful exit exactly when there is no hook or the hook
exits with status zero. -/
theorem claim_C8 : ∀ (post_run_hook : Option String) (hook_return_code : Nat),
    epiloguePrintsSuccess post_run_hook hook_return_code =
      (post_run_hook.isNone || hook_return_code == 0) := by
  intro hook code
  cases hook with
  | none => rfl
  | some h =>
    cases code with
    | zero => rfl
    | succ n =>
      simp [epiloguePrintsSuccess, run_workload_epilogue, fabric_local]

/-!
### The monitor loop: helper lemmas
-/

theorem run_workload_monitor_events (r : RootKind) (rest : List RootKind)
    (trace : List (List InstanceState)) :
    (run_workload_monitor (r :: rest) trace).events =
      (runPollingLoop (r == RootKind.switchRoot) trace).1 := by
  unfold run_workload_monitor
  by_cases h : (runPollingLoop (r == RootKind.switchRoot) trace).2 <;>
    simp [h, MonitorOutcome.events]

/-- A kill dispatch appears among the loop's events iff teardown is
required and some tick's merged status reports a completion. -/
theorem runPollingLoop_kill (tr : Bool) (trace : List (List InstanceState)) :
    (runPollingLoop tr trace).1.any MonitorEvent.isKill =
      (tr && trace.any (fun st => (global_status st).any id)) := by
  induction trace with
  | nil => simp [runPollingLoop]
  | cons st rest ih =>
    cases tr with
    | false =>
      by_cases h2 : (global_status st).all id
      · simp [runPollingLoop, h2, MonitorEvent.isKill]
      · simp [runPollingLoop, h2, MonitorEvent.isKill, ih]
    | true =>
      by_cases h1 : (global_status st).any id
      · simp [runPollingLoop, h1, MonitorEvent.isKill]
      · simp [runPollingLoop, h1, MonitorEvent.isKill, ih]

/-- The networked loop: while no tick triggers, each tick polls once; at
the first triggering tick the loop polls, kills, polls once more with the
teardown flag, and exits. -/
theorem runPollingLoop_teardown (pre : List (List InstanceState))
    (st : List InstanceState) (post : List (List InstanceState))
    (hpre : ∀ s ∈ pre, (global_status s).any id = false)
    (hst : (global_status st).any id = true) :
    runPollingLoop true (pre ++ st :: post) =
      (List.replicate pre.length (MonitorEvent.poll false) ++
        [MonitorEvent.poll false, MonitorEvent.killSimulationPasses false,
         MonitorEvent.poll true], true) := by
  induction pre with
  | nil => simp [runPollingLoop, hst]
  | cons s ss ih =>
    have hs : (global_status s).any id = false := hpre s (by simp)
    have ihs := ih (fun x hx => hpre x (by simp [hx]))
    simp [runPollingLoop, hs, ihs, List.replicate_succ]

/-- The non-networked loop: while some simulation is incomplete each tick
polls once; at the first all-complete tick the loop polls and exits. -/
theorem runPollingLoop_allDone (pre : List (List InstanceState))
    (st : List InstanceState) (post : List (List InstanceState))
    (hpre : ∀ s ∈ pre, (global_status s).all id = false)
    (hst : (global_status st).all id = true) :
    runPollingLoop false (pre ++ st :: post) =
      (List.replicate (pre.length + 1) (MonitorEvent.poll false), true) := by
  induction pre with
  | nil => simp [runPollingLoop, hst, List.replicate_succ]
  | cons s ss ih =>
    have hs : (global_status s).all id = false := hpre s (by simp)
    have ihs := ih (fun x hx => hpre x (by simp [hx]))
    simp [runPollingLoop, hs, ihs, List.replicate_succ]

/-- The non-networked loop keeps polling while every tick reports an
incomplete simulation. -/
theorem runPollingLoop_runsOut (trace : List (List InstanceState))
    (h : ∀ s ∈ trace, (global_status s).all id = false) :
    runPollingLoop false trace =
      (List.replicate trace.length (MonitorEvent.poll false), false) := by
  induction trace with
  | nil => simp [runPollingLoop]
  | cons s ss ih =>
    have hs : (global_status s).all id = false := h s (by simp)
    have ihs := ih (fun x hx => h x (by simp [hx]))
    simp [runPollingLoop, hs, ihs, List.replicate_succ]

/-!
### Python dict merging: under fleet-wide distinct simulation names the
merged `jobs_complete_dict` is the concatenation of the per-host dicts.
-/

theorem dictKeys_append (d1 d2 : List (String × Bool)) :
    dictKeys (d1 ++ d2) = dictKeys d1 ++ dictKeys d2 := by
  simp [dictKeys]

theorem dictAssign_not_mem (d : List (String × Bool)) (k : String) (v : Bool)
    (h : k ∉ dictKeys d) : dictAssign d k v = d ++ [(k, v)] := by
  have hany : d.any (fun p => p.1 == k) = false := by
    rw [List.any_eq_false]
    intro p hp
    simp only [beq_iff_eq]
    intro hpk
    exact h (List.mem_map.mpr ⟨p, hp, hpk⟩)
  simp [dictAssign, hany]

theorem dictUpdate_disjoint (kv d : List (String × Bool))
    (hdisj : ∀ k ∈ dictKeys kv, k ∉ dictKeys d)
    (hnd : (dictKeys kv).Nodup) :
    dictUpdate d kv = d ++ kv := by
  induction kv generalizing d with
  | nil => simp [dictUpdate]
  | cons p ps ih =>
    have hstep : dictUpdate d (p :: ps) = dictUpdate (dictAssign d p.1 p.2) ps := rfl
    rw [hstep, dictAssign_not_mem d p.1 p.2 (hdisj p.1 (List.mem_cons_self _ _))]
    have hnd0 : (p.1 :: dictKeys ps).Nodup := hnd
    rcases List.nodup_cons.mp hnd0 with ⟨hp1, hnd2⟩
    have hdisj2 : ∀ k ∈ dictKeys ps, k ∉ dictKeys (d ++ [(p.1, p.2)]) := by
      intro k hk hkmem
      rw [dictKeys_append] at hkmem
      rcases List.mem_append.mp hkmem with hkd | hkp
      · exact hdisj k (List.mem_cons_of_mem _ hk) hkd
      · have hkp1 : k = p.1 := List.mem_singleton.mp hkp
        exact hp1 (hkp1 ▸ hk)
    rw [ih (d ++ [(p.1, p.2)]) hdisj2 hnd2]
    simp

theorem jobs_complete_foldl (sts : List InstanceState) (d : List (String × Bool))
    (hnd : ((((sts.map (fun h => h.sims)).flatten)).map (fun p => p.1)).Nodup)
    (hdisj : ∀ k ∈ (((sts.map (fun h => h.sims)).flatten)).map (fun p => p.1),
      k ∉ dictKeys d) :
    sts.foldl (fun acc inst => dictUpdate acc inst.sims) d =
      d ++ (sts.map (fun h => h.sims)).flatten := by
  induction sts generalizing d with
  | nil => simp
  | cons inst rest ih =>
    rw [List.map_cons, List.flatten_cons, List.map_append] at hnd hdisj
    rcases List.nodup_append.mp hnd with ⟨hnd1, hnd2, hdj⟩
    have hupd : dictUpdate d inst.sims = d ++ inst.sims := by
      refine dictUpdate_disjoint inst.sims d ?_ hnd1
      intro k hk
      exact hdisj k (List.mem_append_left _ hk)
    have hdisj2 : ∀ k ∈ ((rest.map (fun h => h.sims)).flatten).map (fun p => p.1),
        k ∉ dictKeys (d ++ inst.sims) := by
      intro k hk hkmem
      rw [dictKeys_append] at hkmem
      rcases List.mem_append.mp hkmem with hkd | hki
      · exact hdisj k (List.mem_append_right _ hk) hkd
      · exact hdj hki hk
    rw [List.foldl_cons, hupd, ih (d ++ inst.sims) hnd2 hdisj2]
    rw [List.map_cons, List.flatten_cons, List.append_assoc]

theorem jobs_complete_dict_eq (sts : List InstanceState)
    (h : tickSimKeysNodup sts) :
    jobs_complete_dict sts = (sts.map (fun h => h.sims)).flatten := by
  have hgen := jobs_complete_foldl sts [] h (by intro k hk; simp [dictKeys])
  simpa [jobs_complete_dict] using hgen

theorem any_over_map (f : α → β) (p : β → Bool) (l : List α) :
    (l.map f).any p = l.any (fun a => p (f a)) := by
  induction l with
  | nil => rfl
  | cons a as ih => simp [List.any_cons, ih]

theorem all_over_map (f : α → β) (p : β → Bool) (l : List α) :
    (l.map f).all p = l.all (fun a => p (f a)) := by
  induction l with
  | nil => rfl
  | cons a as ih => simp [List.all_cons, ih]

theorem any_snd_flatten (L : List (List (String × Bool))) :
    (((L.flatten)).map (fun p => p.2)).any id =
      L.any (fun l => l.any (fun p => p.2)) := by
  induction L with
  | nil => rfl
  | cons l ls ih =>
    rw [List.flatten_cons, List.map_append, List.any_append, ih, any_over_map]
    rfl

theorem all_snd_flatten (L : List (List (String × Bool))) :
    (((L.flatten)).map (fun p => p.2)).all id =
      L.all (fun l => l.all (fun p => p.2)) := by
  induction L with
  | nil => rfl
  | cons l ls ih =>
    rw [List.flatten_cons, List.map_append, List.all_append, ih, all_over_map]
    rfl

/-- Under fleet-wide distinct simulation names, `any(global_status)` is
exactly "some host reports some simulation complete". -/
theorem global_status_any_eq (sts : List InstanceState)
    (h : tickSimKeysNodup sts) :
    (global_status sts).any id = tickAnyComplete sts := by
  unfold global_status tickAnyComplete
  rw [jobs_complete_dict_eq sts h, any_snd_flatten, any_over_map]

/-- Under fleet-wide distinct simulation names, `all(global_status)` is
exactly "every host reports every simulation complete". -/
theorem global_status_all_eq (sts : List InstanceState)
    (h : tickSimKeysNodup sts) :
    (global_status sts).all id = tickAllComplete sts := by
  unfold global_status tickAllComplete
  rw [jobs_complete_dict_eq sts h, all_snd_flatten, all_over_map]

/-!
### Claims C3, C4 and C10: the monitor loop
-/

/-- Claim C10: the choice between the networked teardown rule and the
non-networked rule depends only on the first root
(`teardown_required = isinstance(roots[0], FireSimSwitchNode)`): for any
mix of remaining roots the monitor behaves identically, and a kill
dispatch occurs iff the first root is a switch and some tick's merged
status reports a completion. -/
theorem claim_C10 (r : RootKind) (rest1 rest2 : List RootKind)
    (trace : List (List InstanceState)) :
    run_workload_monitor (r :: rest1) trace =
      run_workload_monitor (r :: rest2) trace ∧
    (run_workload_monitor (r :: rest1) trace).events.any MonitorEvent.isKill =
      ((r == RootKind.switchRoot) &&
        trace.any (fun st => (global_status st).any id)) := by
  constructor
  · rfl
  · rw [run_workload_monitor_events]
    exact runPollingLoop_kill _ trace

/-- Claim C3: with the first root a switch, at the first tick at which any
host reports any simulation complete (the other hosts reporting none), the
monitor issues the kill dispatch with `disconnect_all_nbds = False` (no
virtual-block-device disconnect; the kill pass dispatches kill-switches
then kill-simulations), issues exactly one more status query with the
teardown flag true, and exits the polling loop.  Simulation names are
assumed fleet-wide distinct at the triggering tick (each simulation is
reported by one host). -/
theorem claim_C3 (rest : List RootKind)
    (pre post : List (List InstanceState)) (st : List InstanceState)
    (hpre : ∀ s ∈ pre, tickSimKeysNodup s ∧ tickAnyComplete s = false)
    (hnd : tickSimKeysNodup st) (hst : tickAnyComplete st = true) :
    run_workload_monitor (RootKind.switchRoot :: rest) (pre ++ st :: post) =
      MonitorOutcome.done
        (List.replicate pre.length (MonitorEvent.poll false) ++
          [MonitorEvent.poll false, MonitorEvent.killSimulationPasses false,
           MonitorEvent.poll true]) ∧
    kill_simulation_passes false =
      [FleetOp.post_launch_binding, FleetOp.kill_switches,
       FleetOp.kill_simulations false, FleetOp.screens_poll] := by
  refine ⟨?_, rfl⟩
  have hloop := runPollingLoop_teardown pre st post
    (fun s hs => by
      rw [global_status_any_eq s (hpre s hs).1]
      exact (hpre s hs).2)
    (by rw [global_status_any_eq st hnd]; exact hst)
  unfold run_workload_monitor
  simp [hloop]

theorem claim_C3_witness :
    ((∀ s ∈ ([] : List (List InstanceState)),
        tickSimKeysNodup s ∧ tickAnyComplete s = false) ∧
      tickSimKeysNodup
        [⟨[("switch0", false)], [("job0", true)]⟩, ⟨[], [("job1", false)]⟩] ∧
      tickAnyComplete
        [⟨[("switch0", false)], [("job0", true)]⟩, ⟨[], [("job1", false)]⟩] = true) ∧
    run_workload_monitor [RootKind.switchRoot]
        [[⟨[("switch0", false)], [("job0", true)]⟩, ⟨[], [("job1", false)]⟩]] =
      MonitorOutcome.done
        [MonitorEvent.poll false, MonitorEvent.killSimulationPasses false,
         MonitorEvent.poll true] ∧
    kill_simulation_passes false =
      [FleetOp.post_launch_binding, FleetOp.kill_switches,
       FleetOp.kill_simulations false, FleetOp.screens_poll] :=
  ⟨⟨fun s hs => absurd hs (List.not_mem_nil s),
      by unfold tickSimKeysNodup; decide, by decide⟩,
    claim_C3 []
      [] []
      [⟨[("switch0", false)], [("job0", true)]⟩, ⟨[], [("job1", false)]⟩]
      (fun s hs => absurd hs (List.not_mem_nil s))
      (by unfold tickSimKeysNodup; decide) (by decide)⟩

/-- Claim C4: with the first root a machine, the monitor never issues a
kill dispatch; it exits the polling loop at exactly the first tick at
which every simulation reports complete, and keeps polling while any
simulation is incomplete.  Simulation names are assumed fleet-wide
distinct on every tick. -/
theorem claim_C4 (rest : List RootKind) (trace : List (List InstanceState))
    (hnodup : ∀ s ∈ trace, tickSimKeysNodup s) :
    (run_workload_monitor (RootKind.serverRoot :: rest) trace).events.any
        MonitorEvent.isKill = false ∧
    (∀ pre st post, trace = pre ++ st :: post →
      (∀ s ∈ pre, tickAllComplete s = false) → tickAllComplete st = true →
      run_workload_monitor (RootKind.serverRoot :: rest) trace =
        MonitorOutcome.done
          (List.replicate (pre.length + 1) (MonitorEvent.poll false))) ∧
    ((∀ s ∈ trace, tickAllComplete s = false) →
      run_workload_monitor (RootKind.serverRoot :: rest) trace =
        MonitorOutcome.running
          (List.replicate trace.length (MonitorEvent.poll false))) := by
  refine ⟨?_, ?_, ?_⟩
  · rw [run_workload_monitor_events, runPollingLoop_kill]
    rfl
  · intro pre st post htr hpre hst
    subst htr
    have hloop := runPollingLoop_allDone pre st post
      (fun s hs => by
        rw [global_status_all_eq s (hnodup s (by simp [hs]))]
        exact hpre s hs)
      (by
        rw [global_status_all_eq st (hnodup st (by simp))]
        exact hst)
    unfold run_workload_monitor
    simp only [show (RootKind.serverRoot == RootKind.switchRoot) = false from rfl, hloop]
    simp
  · intro hall
    have hloop := runPollingLoop_runsOut trace
      (fun s hs => by
        rw [global_status_all_eq s (hnodup s hs)]
        exact hall s hs)
    unfold run_workload_monitor
    simp only [show (RootKind.serverRoot == RootKind.switchRoot) = false from rfl, hloop]
    rfl

theorem claim_C4_witness :
    (∀ s ∈ [[InstanceState.mk [] [("j0", true)], InstanceState.mk [] [("j1", false)]],
            [InstanceState.mk [] [("j0", true)], InstanceState.mk [] [("j1", true)]]],
      tickSimKeysNodup s) ∧
    run_workload_monitor [RootKind.serverRoot]
        [[InstanceState.mk [] [("j0", true)], InstanceState.mk [] [("j1", false)]],
         [InstanceState.mk [] [("j0", true)], InstanceState.mk [] [("j1", true)]]] =
      MonitorOutcome.done
        [MonitorEvent.poll false, MonitorEvent.poll false] := by
  have hnd : ∀ s ∈ [[InstanceState.mk [] [("j0", true)], InstanceState.mk [] [("j1", false)]],
      [InstanceState.mk [] [("j0", true)], InstanceState.mk [] [("j1", true)]]],
      tickSimKeysNodup s := by
    intro s hs
    rcases List.mem_cons.mp hs with h | h
    · subst h; unfold tickSimKeysNodup; decide
    · rcases List.mem_cons.mp h with h2 | h2
      · subst h2; unfold tickSimKeysNodup; decide
      · exact absurd h2 (List.not_mem_nil s)
  refine ⟨hnd, ?_⟩
  have := (claim_C4 [] _ hnd).2.1
    [[InstanceState.mk [] [("j0", true)], InstanceState.mk [] [("j1", false)]]]
    [InstanceState.mk [] [("j0", true)], InstanceState.mk [] [("j1", true)]]
    [] rfl
    (by
      intro s hs
      rcases List.mem_cons.mp hs with h | h
      · subst h; decide
      · exact absurd h (List.not_mem_nil s))
    (by decide)
  exact this

/-!
### Claim C6: switching tables
-/

theorem setPortMacs_length (tab macs : List Nat) (p : Nat) :
    (setPortMacs tab macs p).length = tab.length := by
  induction macs generalizing tab with
  | nil => rfl
  | cons m ms ih =>
    show (setPortMacs (tab.set m p) ms p).length = tab.length
    rw [ih, List.length_set]

theorem setPortMacs_getElem_not_mem (tab macs : List Nat) (p a : Nat)
    (h : a ∉ macs) : (setPortMacs tab macs p)[a]? = tab[a]? := by
  induction macs generalizing tab with
  | nil => rfl
  | cons m ms ih =>
    show (setPortMacs (tab.set m p) ms p)[a]? = tab[a]?
    rw [ih _ (fun hm => h (List.mem_cons_of_mem m hm))]
    refine List.getElem?_set_ne ?_
    intro he
    exact h (by rw [← he]; exact List.mem_cons_self m ms)

theorem portLoop_length (ds : List FNode) (p : Nat) (tab : List Nat) :
    (portLoop ds p tab).length = tab.length := by
  induction ds generalizing p tab with
  | nil => rfl
  | cons d ds ih =>
    show (portLoop ds (p + 1) (setPortMacs tab (downlinkmacs d) p)).length
      = tab.length
    rw [ih, setPortMacs_length]

theorem portLoop_getElem_not_mem (ds : List FNode) (p : Nat)
    (tab : List Nat) (a : Nat) (h : a ∉ downlinkmacsList ds) :
    (portLoop ds p tab)[a]? = tab[a]? := by
  induction ds generalizing p tab with
  | nil => rfl
  | cons d ds ih =>
    have hsplit : downlinkmacsList (d :: ds)
        = downlinkmacs d ++ downlinkmacsList ds := rfl
    rw [hsplit] at h
    have h1 : a ∉ downlinkmacs d := fun hm => h (List.mem_append_left _ hm)
    have h2 : a ∉ downlinkmacsList ds := fun hm => h (List.mem_append_right _ hm)
    show (portLoop ds (p + 1) (setPortMacs tab (downlinkmacs d) p))[a]? = tab[a]?
    rw [ih _ _ h2, setPortMacs_getElem_not_mem _ _ _ _ h1]

theorem switch_table_length (next_mac : Nat) (ds : List FNode) :
    (switch_table next_mac ds).length = next_mac := by
  unfold switch_table
  rw [portLoop_length, List.length_replicate]

theorem switch_table_default (next_mac : Nat) (ds : List FNode) (a : Nat)
    (ha : a < next_mac) (h : a ∉ downlinkmacsList ds) :
    (switch_table next_mac ds)[a]? = some ds.length := by
  unfold switch_table
  rw [portLoop_getElem_not_mem _ _ _ _ h, List.getElem?_replicate]
  simp [ha]

/-- Claim C6: after MAC assignment and the switching-table pass, every
switch's table has length equal to the allocator's next-to-issue value
(the total number of allocated addresses, however many are reachable below
the switch), and every entry whose address is not reachable through one of
the switch's downlinks holds the uplink port number, which equals the
switch's number of downlinks.  The well-formedness hypothesis records that
the Python `reduce` over the child downlink-MAC lists requires every
switch to have at least one downlink. -/
theorem claim_C6 (roots : List FNode) (_hwf : wfNodeList roots = true) :
    ∃ out, phase_one_mac_and_tables roots = .ok out ∧
      ∀ p ∈ out,
        p.2.length = (assignMacsList roots 0).2 ∧
        ∀ a : Nat, a < (assignMacsList roots 0).2 →
          a ∉ downlinkmacsList p.1 → p.2[a]? = some p.1.length := by
  refine ⟨(switchesDfsList (assignMacsList roots 0).1).map
      (fun ds => (ds, switch_table (assignMacsList roots 0).2 ds)), ?_, ?_⟩
  · unfold phase_one_mac_and_tables pass_compute_switching_tables
    simp
  · intro p hp
    rcases List.mem_map.mp hp with ⟨ds, hds, hpds⟩
    subst hpds
    exact ⟨switch_table_length _ _,
      fun a ha hnot => switch_table_default _ _ _ ha hnot⟩

theorem claim_C6_witness :
    wfNodeList [FNode.switch [FNode.server 0 false, FNode.server 0 false],
        FNode.server 0 false] = true ∧
    ∃ out, phase_one_mac_and_tables
        [FNode.switch [FNode.server 0 false, FNode.server 0 false],
         FNode.server 0 false] = .ok out ∧
      ∀ p ∈ out,
        p.2.length = (assignMacsList
          [FNode.switch [FNode.server 0 false, FNode.server 0 false],
           FNode.server 0 false] 0).2 ∧
        ∀ a : Nat, a < (assignMacsList
            [FNode.switch [FNode.server 0 false, FNode.server 0 false],
             FNode.server 0 false] 0).2 →
          a ∉ downlinkmacsList p.1 → p.2[a]? = some p.1.length :=
  ⟨by decide, claim_C6 _ (by decide)⟩

/-!
### Claim C5: the no-network packing pass
-/

theorem map_fst_pair_nil (hs : List FPGAInst) :
    List.map (Prod.fst ∘ fun h2 => (h2, ([] : List Nat))) hs = hs := by
  induction hs with
  | nil => rfl
  | cons h hs ih => simp [ih]

theorem flatten_snd_nil_map (hs : List FPGAInst) :
    ((hs.map (fun h2 => (h2, ([] : List Nat)))).map Prod.snd).flatten = [] := by
  induction hs with
  | nil => rfl
  | cons h hs ih => simp [ih]

/-- Behaviour of the inner slot loop: starting in range, it either places
all remaining servers and returns early, or fills every slot of the host
and falls through. -/
theorem assignHostSlots_spec (servers : List Nat) (slots : Nat) :
    ∀ (serverind : Nat) (acc : List Nat), serverind < servers.length →
    (servers.length - serverind ≤ slots →
      assignHostSlots servers slots serverind acc =
        .ok (acc ++ servers.drop serverind, servers.length, true)) ∧
    (slots < servers.length - serverind →
      assignHostSlots servers slots serverind acc =
        .ok (acc ++ (servers.drop serverind).take slots,
          serverind + slots, false)) := by
  induction slots with
  | zero =>
    intro serverind acc h
    constructor
    · intro hle
      omega
    · intro _
      simp [assignHostSlots]
  | succ n ih =>
    intro serverind acc h
    have hget : servers[serverind]? = some servers[serverind] :=
      List.getElem?_eq_getElem h
    have hdrop : servers.drop serverind
        = servers[serverind] :: servers.drop (serverind + 1) :=
      List.drop_eq_getElem_cons h
    constructor
    · intro hle
      simp only [assignHostSlots, hget]
      by_cases heq : servers.length = serverind + 1
      · rw [if_pos heq]
        have hnil : servers.drop (serverind + 1) = [] :=
          List.drop_eq_nil_of_le (by omega)
        rw [hdrop, hnil, heq]
      · rw [if_neg heq]
        have h2 : serverind + 1 < servers.length := by omega
        have hrec := (ih (serverind + 1) (acc ++ [servers[serverind]]) h2).1
          (by omega)
        rw [hrec, hdrop]
        simp
    · intro hlt
      simp only [assignHostSlots, hget]
      have heq : ¬ servers.length = serverind + 1 := by omega
      rw [if_neg heq]
      have h2 : serverind + 1 < servers.length := by omega
      have hrec := (ih (serverind + 1) (acc ++ [servers[serverind]]) h2).2
        (by omega)
      rw [hrec, hdrop, List.take_succ_cons]
      have harith : serverind + 1 + n = serverind + (n + 1) := by omega
      rw [harith]
      simp

/-- Behaviour of the outer host loop: starting in range, if the remaining
servers fit in the remaining capacity the loop places all of them (in DFS
order, spilling host by host) and returns early; otherwise it fills every
slot and falls through with `serverind` advanced by the total capacity. -/
theorem noNetLoop_spec (servers : List Nat) (hs : List FPGAInst) :
    ∀ serverind : Nat, serverind < servers.length →
    (servers.length - serverind ≤ totalSlots hs →
      ∃ asg, noNetLoop servers hs serverind = .ok (asg, servers.length, true) ∧
        asg.map Prod.fst = hs ∧
        (asg.map Prod.snd).flatten = servers.drop serverind ∧
        ∀ p ∈ asg, p.2.length ≤ p.1.num_fpga_slots_max) ∧
    (totalSlots hs < servers.length - serverind →
      ∃ asg, noNetLoop servers hs serverind =
          .ok (asg, serverind + totalSlots hs, false) ∧
        asg.map Prod.fst = hs) := by
  induction hs with
  | nil =>
    intro serverind h
    constructor
    · intro hle
      exfalso
      simp [totalSlots] at hle
      omega
    · intro _
      refine ⟨[], ?_, rfl⟩
      simp [noNetLoop, totalSlots]
  | cons hst hsrest ih =>
    intro serverind h
    have htot : totalSlots (hst :: hsrest)
        = hst.num_fpga_slots_max + totalSlots hsrest := by
      simp [totalSlots]
    constructor
    · intro hle
      by_cases hcase : servers.length - serverind ≤ hst.num_fpga_slots_max
      · have hA := (assignHostSlots_spec servers hst.num_fpga_slots_max
          serverind [] h).1 hcase
        refine ⟨(hst, servers.drop serverind) ::
          hsrest.map (fun h2 => (h2, [])), ?_, ?_, ?_, ?_⟩
        · simp [noNetLoop, hA]
        · simp [map_fst_pair_nil]
        · simp only [List.map_cons, List.flatten_cons, flatten_snd_nil_map,
            List.append_nil]
        · intro p hp
          rcases List.mem_cons.mp hp with hp1 | hp1
          · subst hp1
            simpa using hcase
          · rcases List.mem_map.mp hp1 with ⟨h2, _, hph⟩
            subst hph
            simp
      · have hcase2 : hst.num_fpga_slots_max < servers.length - serverind := by
          omega
        have hA := (assignHostSlots_spec servers hst.num_fpga_slots_max
          serverind [] h).2 hcase2
        have h2 : serverind + hst.num_fpga_slots_max < servers.length := by
          omega
        obtain ⟨asg, hrun, hfst, hflat, hbound⟩ := (ih _ h2).1 (by
          rw [htot] at hle
          omega)
        refine ⟨(hst, (servers.drop serverind).take hst.num_fpga_slots_max)
          :: asg, ?_, ?_, ?_, ?_⟩
        · simp [noNetLoop, hA, hrun]
        · simp [hfst]
        · simp only [List.map_cons, List.flatten_cons, hflat]
          have hdd : servers.drop (serverind + hst.num_fpga_slots_max)
              = (servers.drop serverind).drop hst.num_fpga_slots_max := by
            rw [List.drop_drop, Nat.add_comm]
          rw [hdd, List.take_append_drop]
        · intro p hp
          rcases List.mem_cons.mp hp with hp1 | hp1
          · subst hp1
            simp [List.length_take_le]
          · exact hbound p hp1
    · intro hlt
      rw [htot] at hlt
      have hcase2 : hst.num_fpga_slots_max < servers.length - serverind := by
        omega
      have hA := (assignHostSlots_spec servers hst.num_fpga_slots_max
        serverind [] h).2 hcase2
      have h2 : serverind + hst.num_fpga_slots_max < servers.length := by
        omega
      obtain ⟨asg, hrun, hfst⟩ := (ih _ h2).2 (by omega)
      refine ⟨(hst, (servers.drop serverind).take hst.num_fpga_slots_max)
        :: asg, ?_, ?_⟩
      · have harith : serverind + hst.num_fpga_slots_max + totalSlots hsrest
            = serverind + totalSlots (hst :: hsrest) := by
          rw [htot]
          omega
        simp [noNetLoop, hA, hrun, harith]
      · simp [hfst]

/-- Claim C5: the no-network packing pass sorts the FPGA hosts by
descending capacity with ties in input order (the sort is a stable
descending sort — it is pairwise-descending, a permutation of the input,
and keeps equal-capacity hosts in input order, cf. the final concrete
conjunct); it assigns the DFS-ordered machines host by host in that order,
each machine exactly once, whenever the total capacity suffices; it fails
with the assignment-completeness error when it does not; and on the spec's
examples it fills the capacity-8 host, then the capacity-4 host, then the
capacity-2 host, and fails for 15 machines. -/
theorem claim_C5 (fpga_nodes0 : List FPGAInst) (servers : List Nat)
    (hne : 0 < servers.length) :
    (servers.length ≤ totalSlots fpga_nodes0 →
      ∃ asg, pass_no_net_host_mapping fpga_nodes0 servers = .ok asg ∧
        asg.map Prod.fst = stableSort noNetSortLe fpga_nodes0 ∧
        (asg.map Prod.snd).flatten = servers ∧
        ∀ p ∈ asg, p.2.length ≤ p.1.num_fpga_slots_max) ∧
    (totalSlots fpga_nodes0 < servers.length →
      pass_no_net_host_mapping fpga_nodes0 servers =
        .error "ERR: all servers were not assigned to a host.") ∧
    (stableSort noNetSortLe fpga_nodes0).Pairwise
      (fun a b => b.num_fpga_slots_max ≤ a.num_fpga_slots_max) ∧
    List.Perm (stableSort noNetSortLe fpga_nodes0) fpga_nodes0 ∧
    pass_no_net_host_mapping [⟨0, 4⟩, ⟨1, 2⟩, ⟨2, 8⟩] (List.range 10) =
      .ok [(⟨2, 8⟩, [0, 1, 2, 3, 4, 5, 6, 7]), (⟨0, 4⟩, [8, 9]), (⟨1, 2⟩, [])] ∧
    pass_no_net_host_mapping [⟨0, 4⟩, ⟨1, 2⟩, ⟨2, 8⟩] (List.range 15) =
      .error "ERR: all servers were not assigned to a host." ∧
    stableSort noNetSortLe [⟨0, 4⟩, ⟨1, 4⟩] = [⟨0, 4⟩, ⟨1, 4⟩] := by
  have hperm : List.Perm (stableSort noNetSortLe fpga_nodes0) fpga_nodes0 :=
    stableSort_perm _ _
  have htot : totalSlots (stableSort noNetSortLe fpga_nodes0)
      = totalSlots fpga_nodes0 := by
    unfold totalSlots
    exact (hperm.map (fun h => h.num_fpga_slots_max)).sum_eq
  refine ⟨?_, ?_, ?_, hperm, by rfl, by rfl, by rfl⟩
  · intro hle
    obtain ⟨asg, hrun, hfst, hflat, hbound⟩ :=
      (noNetLoop_spec servers (stableSort noNetSortLe fpga_nodes0) 0 hne).1
        (by rw [htot]; omega)
    refine ⟨asg, ?_, hfst, by simpa using hflat, hbound⟩
    unfold pass_no_net_host_mapping
    simp [hrun]
  · intro hlt
    obtain ⟨asg, hrun, _⟩ :=
      (noNetLoop_spec servers (stableSort noNetSortLe fpga_nodes0) 0 hne).2
        (by rw [htot]; omega)
    unfold pass_no_net_host_mapping
    have hne2 : totalSlots (stableSort noNetSortLe fpga_nodes0)
        ≠ servers.length := by
      rw [htot]
      omega
    simp only [hrun]
    simp [hne2]
  · refine (stableSort_pairwise noNetSortLe ?_ ?_ fpga_nodes0).imp ?_
    · intro a b
      unfold noNetSortLe
      rcases Nat.le_total b.num_fpga_slots_max a.num_fpga_slots_max with h | h
      · exact Or.inl (by simpa using h)
      · exact Or.inr (by simpa using h)
    · intro a b c hab hbc
      unfold noNetSortLe at hab hbc ⊢
      simp only [decide_eq_true_eq] at hab hbc ⊢
      omega
    · intro a b hab
      simpa [noNetSortLe] using hab

theorem claim_C5_witness :
    0 < (List.range 10).length ∧
    (((List.range 10).length ≤ totalSlots [⟨0, 4⟩, ⟨1, 2⟩, ⟨2, 8⟩] →
      ∃ asg, pass_no_net_host_mapping [⟨0, 4⟩, ⟨1, 2⟩, ⟨2, 8⟩] (List.range 10) =
          .ok asg ∧
        asg.map Prod.fst = stableSort noNetSortLe [⟨0, 4⟩, ⟨1, 2⟩, ⟨2, 8⟩] ∧
        (asg.map Prod.snd).flatten = List.range 10 ∧
        ∀ p ∈ asg, p.2.length ≤ p.1.num_fpga_slots_max) ∧
    (totalSlots [⟨0, 4⟩, ⟨1, 2⟩, ⟨2, 8⟩] < (List.range 10).length →
      pass_no_net_host_mapping [⟨0, 4⟩, ⟨1, 2⟩, ⟨2, 8⟩] (List.range 10) =
        .error "ERR: all servers were not assigned to a host.") ∧
    (stableSort noNetSortLe [⟨0, 4⟩, ⟨1, 2⟩, ⟨2, 8⟩]).Pairwise
      (fun a b => b.num_fpga_slots_max ≤ a.num_fpga_slots_max) ∧
    List.Perm (stableSort noNetSortLe [⟨0, 4⟩, ⟨1, 2⟩, ⟨2, 8⟩])
      [⟨0, 4⟩, ⟨1, 2⟩, ⟨2, 8⟩] ∧
    pass_no_net_host_mapping [⟨0, 4⟩, ⟨1, 2⟩, ⟨2, 8⟩] (List.range 10) =
      .ok [(⟨2, 8⟩, [0, 1, 2, 3, 4, 5, 6, 7]), (⟨0, 4⟩, [8, 9]), (⟨1, 2⟩, [])] ∧
    pass_no_net_host_mapping [⟨0, 4⟩, ⟨1, 2⟩, ⟨2, 8⟩] (List.range 15) =
      .error "ERR: all servers were not assigned to a host." ∧
    stableSort noNetSortLe [⟨0, 4⟩, ⟨1, 4⟩] = [⟨0, 4⟩, ⟨1, 4⟩]) :=
  ⟨by decide, claim_C5 [⟨0, 4⟩, ⟨1, 2⟩, ⟨2, 8⟩] (List.range 10) (by decide)⟩

end FireSimModel
